import Mathlib

/-!
Shallow embedding of the MLB lineup optimizer core
(`mlboptimizer/optimizer_mlb.py`, with roster preparation facts taken from
`mlboptimizer/data_processing.py`).

The optimizer builds a boolean linear constraint model (one decision variable
per roster row), extends a copy of the constant base model per lineup with
variance/stacking constraints, hands the model to the external CP-SAT solver,
and extracts index lists plus binary selection vectors from an OPTIMAL solve.
The external solver itself is not part of the repository, so a solve is
modelled by an oracle outcome; an OPTIMAL outcome carries an assignment which,
by the solver contract, satisfies every constraint of the submitted model.
-/

namespace MLBOpt

/-- A pitcher roster row. Column names follow the DataFrames produced by
`data_processing.transform_data`: `index` is the post-split positional id,
`position` is the (already upper-cased) `Position` string, `nameId` is the
`Name + ID` display column used for CSV export. -/
structure Pitcher where
  index : Nat
  name : String
  position : String
  salary : Int
  points : Int
  team : String
  opp : String
  game : String
  nameId : String
deriving DecidableEq

/-- A hitter roster row; same columns as `Pitcher`. Position eligibility
columns (`C_bool`, ...) are recomputed from `position` exactly as
`data_processing.position_bools` does, so they are not stored separately. -/
structure Hitter where
  index : Nat
  name : String
  position : String
  salary : Int
  points : Int
  team : String
  opp : String
  game : String
  nameId : String
deriving DecidableEq

instance : Inhabited Pitcher := ⟨⟨0, "", "", 0, 0, "", "", "", ""⟩⟩

instance : Inhabited Hitter := ⟨⟨0, "", "", 0, 0, "", "", "", ""⟩⟩

/-- `pandas.get_dummies` indicator entry: `1` when the row value equals the
column label, else `0`. A lookup of a label that is not a column is treated as
the zero column here (pandas would raise `KeyError`; no claim depends on that
distinction, and for hitter-derived tables every row value is a column). -/
def ind (a b : String) : Int := if a == b then 1 else 0

/-- The column set of a `get_dummies` table: the distinct values of the
underlying column. -/
def dummyCols (vals : List String) : List String := vals.dedup

/-- Whether the first character list is a prefix of the second. -/
def isPrefixChars : List Char → List Char → Bool
  | [], _ => true
  | _ :: _, [] => false
  | a :: as, b :: bs => a == b && isPrefixChars as bs

/-- Whether `needle` occurs as a contiguous run inside `hay`
(Python `needle in hay` on strings). -/
def containsSub (needle : List Char) : List Char → Bool
  | [] => needle.isEmpty
  | b :: bs => isPrefixChars needle (b :: bs) || containsSub needle bs

/-- `data_processing.position_bools`: a player is eligible at `pos` when the
string `pos` occurs inside the (upper-cased) `Position` value. -/
def hasPos (position pos : String) : Bool := containsSub pos.toList position.toList

/-- The `*_bool` eligibility column entry of `position_bools` as a 0/1 value. -/
def posBool (h : Hitter) (pos : String) : Int := if hasPos h.position pos then 1 else 0

/-- Linear-expression value of a coefficient list against boolean decision
variables: selected variables contribute their coefficient. An empty
coefficient list stands for a constraint with no terms over that variable
group. -/
def dot : List Int → List Bool → Int
  | c :: cs, v :: vs => (if v then c else 0) + dot cs vs
  | _, _ => 0

/-- Number of selected variables in an assignment. -/
def countTrue (vs : List Bool) : Nat := (vs.filter (fun b => b)).length

/-- Comparison operator of a linear constraint. -/
inductive Rel where
  | le
  | ge
  | eq
deriving DecidableEq

/-- One linear constraint of a CP model: coefficients over the pitcher
variables, the hitter variables and (for auto-stacking) the per-team helper
variables, compared with `rhs`. -/
structure LinCon where
  pc : List Int
  hc : List Int
  tc : List Int
  rel : Rel
  rhs : Int
deriving DecidableEq

/-- Whether an assignment (pitcher vars, hitter vars, team vars) satisfies one
constraint. -/
def holdsB (c : LinCon) (pv hv tv : List Bool) : Bool :=
  let lhs := dot c.pc pv + dot c.hc hv + dot c.tc tv
  match c.rel with
  | Rel.le => decide (lhs ≤ c.rhs)
  | Rel.ge => decide (c.rhs ≤ lhs)
  | Rel.eq => decide (lhs = c.rhs)

/-- Whether an assignment satisfies every constraint of a model. -/
def satB (m : List LinCon) (pv hv tv : List Bool) : Bool :=
  m.all (fun c => holdsB c pv hv tv)

/-- Coefficient list that is `c` at position `i` and `0` elsewhere. -/
def basisCoef (n i : Nat) (c : Int) : List Int :=
  (List.range n).map (fun j => if j = i then c else 0)

/-! ### The base model (`add_model_constraints`) -/

/-- `sum(pitchers_var) == 2`. -/
def numPitchersCon (np : Nat) : LinCon := ⟨List.replicate np 1, [], [], Rel.eq, 2⟩

/-- `sum(hitters_var) == 8`. -/
def numHittersCon (nh : Nat) : LinCon := ⟨[], List.replicate nh 1, [], Rel.eq, 8⟩

/-- Per hitter-name dummy column: `sum(hitters_var * name_dummy) <= 1`. -/
def nameCon (H : List Hitter) (nm : String) : LinCon :=
  ⟨[], H.map (fun h => ind h.name nm), [], Rel.le, 1⟩

/-- `sum(vars * Salary) <= 50000`. -/
def salaryCon (P : List Pitcher) (H : List Hitter) : LinCon :=
  ⟨P.map (fun p => p.salary), H.map (fun h => h.salary), [], Rel.le, 50000⟩

/-- `sum(hitters_var * pos_bool) == k` for one position column. -/
def posCon (H : List Hitter) (pos : String) (k : Int) : LinCon :=
  ⟨[], H.map (fun h => posBool h pos), [], Rel.eq, k⟩

/-- Pitcher-not-facing-hitters constraint for pitcher row `i`:
`8 * pitchers_var[i] + sum(hitters_var * opp_dummy[team_i]) <= 8`. -/
def oppCon (P : List Pitcher) (H : List Hitter) (i : Nat) : LinCon :=
  ⟨basisCoef P.length i 8,
   H.map (fun h => ind h.opp ((P.getD i default).team)), [], Rel.le, 8⟩

/-- Game-spread constraint for one pitcher-game column `g`:
`sum(pitchers_var * pitcher_game[g]) + sum(hitters_var * hitter_game[g]) <= 9`. -/
def gameCon (P : List Pitcher) (H : List Hitter) (g : String) : LinCon :=
  ⟨P.map (fun p => ind p.game g), H.map (fun h => ind h.game g), [], Rel.le, 9⟩

/-- Team-cap constraint for one team column `t`:
`sum(hitters_var * team_dummy[t]) <= 5`. -/
def teamCapCon (H : List Hitter) (t : String) : LinCon :=
  ⟨[], H.map (fun h => ind h.team t), [], Rel.le, 5⟩

/-- The session-constant model built by `create_model` plus
`add_model_constraints`, in source order. -/
def baseConstraints (P : List Pitcher) (H : List Hitter) : List LinCon :=
  [numPitchersCon P.length, numHittersCon H.length]
    ++ (dummyCols (H.map (fun h => h.name))).map (nameCon H)
    ++ [salaryCon P H]
    ++ [posCon H "C" 1, posCon H "1B" 1, posCon H "2B" 1,
        posCon H "3B" 1, posCon H "SS" 1, posCon H "OF" 3]
    ++ (List.range P.length).map (oppCon P H)
    ++ (dummyCols (P.map (fun p => p.game))).map (gameCon P H)
    ++ (dummyCols (H.map (fun h => h.team))).map (teamCapCon H)

/-! ### Flexible constraints -/

/-- `add_variance_constraint`: for each prior lineup `k`, the number of reused
players `sum(binP[k]*P) + sum(binH[k]*H)` is bounded by `10 - variance`
(the source first rebinds `variance = 10 - variance`). Argument order matches
the source signature: model, hitter history, pitcher history, variance. -/
def add_variance_constraint (model : List LinCon)
    (binary_lineups_hitters binary_lineups_pitchers : List (List Int))
    (variance : Int) : List LinCon :=
  model ++ (binary_lineups_pitchers.zip binary_lineups_hitters).map
    (fun e => ⟨e.1, e.2, [], Rel.le, 10 - variance⟩)

/-- `add_autostack_constraint`: one helper boolean per team column; per team
`sum(hitters_var * team_dummy[t]) >= stack_num * team_var[t]`, plus
`sum(team_var) >= 1`. -/
def add_autostack_constraint (H : List Hitter) (model : List LinCon)
    (stack_num : Int) : List LinCon :=
  let teams := dummyCols (H.map (fun h => h.team))
  model
    ++ (List.range teams.length).map (fun t =>
        ⟨[], H.map (fun h => ind h.team (teams.getD t "")),
         basisCoef teams.length t (-stack_num), Rel.ge, 0⟩)
    ++ [⟨[], [], List.replicate teams.length 1, Rel.ge, 1⟩]

/-- `add_teamstack_constraint`: `sum(hitters_var * team_dummy[team]) >= stack_num`. -/
def add_teamstack_constraint (H : List Hitter) (model : List LinCon)
    (team : String) (stack_num : Int) : List LinCon :=
  model ++ [⟨[], H.map (fun h => ind h.team team), [], Rel.ge, stack_num⟩]

/-- Python truthiness of the `team_stack` argument (`if team_stack:`):
`None` and the empty string are falsy. -/
def optTruthy : Option String → Bool
  | none => false
  | some t => !(t == "")

/-- The per-call model as `create_lineup` assembles it on a copy of `base`:
variance constraints always, then auto-stack when `auto_stack` is truthy,
then team-stack when `team_stack` is truthy. -/
def composedModelFrom (H : List Hitter) (base : List LinCon)
    (binP binH : List (List Int)) (auto : Bool) (team : Option String)
    (stack_num variance : Int) : List LinCon :=
  let m1 := add_variance_constraint base binH binP variance
  let m2 := if auto then add_autostack_constraint H m1 stack_num else m1
  if optTruthy team then add_teamstack_constraint H m2 (team.getD "") stack_num
  else m2

/-- The model actually solved for one `create_lineup` call in a session whose
stored model is the base model. -/
def composedModel (P : List Pitcher) (H : List Hitter)
    (binP binH : List (List Int)) (auto : Bool) (team : Option String)
    (stack_num variance : Int) : List LinCon :=
  composedModelFrom H (baseConstraints P H) binP binH auto team stack_num variance

/-- The objective set by `solve_model`:
`maximize sum(vars * ppg_projection)`. (Recorded for completeness; the claims
under verification only concern constraint satisfaction of OPTIMAL solves.) -/
def objectiveValue (P : List Pitcher) (H : List Hitter) (pv hv : List Bool) : Int :=
  dot (P.map (fun p => p.points)) pv + dot (H.map (fun h => h.points)) hv

/-! ### Python argument values and `_check_create_lineup_args` -/

/-- The Python values that can reach `_check_create_lineup_args`. Floats are
modelled as rationals: the validation code only compares them with integer
bounds, which is exact on any concrete float the caller could pass. -/
inductive PyVal where
  | pyBool : Bool → PyVal
  | pyInt : Int → PyVal
  | pyFloat : Rat → PyVal
  | pyStr : String → PyVal
  | pyNone : PyVal
  | pyList : List PyVal → PyVal

/-- `isinstance(x, list)`. -/
def PyVal.isList : PyVal → Bool
  | pyList _ => true
  | _ => false

/-- `isinstance(x, int)`; Python `bool` is a subclass of `int`. -/
def PyVal.isInt : PyVal → Bool
  | pyInt _ => true
  | pyBool _ => true
  | _ => false

/-- `isinstance(x, str) or x is None`. -/
def PyVal.isStrOrNone : PyVal → Bool
  | pyStr _ => true
  | pyNone => true
  | _ => false

/-- Python truthiness (`not x` is `!truthy x`). -/
def PyVal.truthy : PyVal → Bool
  | pyBool b => b
  | pyInt n => !(n == 0)
  | pyFloat q => !(q == 0)
  | pyStr s => !(s == "")
  | pyNone => false
  | pyList xs => !xs.isEmpty

/-- Numeric view used by Python order comparisons; `none` means the
comparison raises `TypeError`. -/
def pyNum? : PyVal → Option Rat
  | PyVal.pyBool b => some (if b then 1 else 0)
  | PyVal.pyInt n => some (n : Rat)
  | PyVal.pyFloat q => some q
  | _ => none

/-- `OptimizerMLB._check_create_lineup_args`. Runs the source assertions in
order and reports the first failure; message texts paraphrase the source
(quote characters dropped). An order comparison on a non-numeric value is the
`TypeError` Python would raise. -/
def check_create_lineup_args (blp blh variance team_stack auto_stack stack_num :
    PyVal) : Except String Unit :=
  if ¬ blp.isList then Except.error "binary_lineups_pitchers type needs to be list"
  else if ¬ blh.isList then Except.error "binary_lineups_hitters type needs to be list"
  else if ¬ variance.isInt then Except.error "variance type needs to be int"
  else
    match pyNum? variance with
    | none => Except.error "TypeError: comparison not supported"
    | some v =>
      if ¬ (0 ≤ v ∧ v ≤ 10) then Except.error "variance must be >= 0 and <= 10"
      else if ¬ team_stack.isStrOrNone then
        Except.error "team_stack must be type string or None"
      else if auto_stack.truthy ∧ team_stack.truthy then
        Except.error "At least one of auto_stack and team_stack must be False/None."
      else
        match pyNum? stack_num with
        | none => Except.error "TypeError: comparison not supported"
        | some s =>
          if ¬ (0 ≤ s ∧ s ≤ 5) then Except.error "stack_num must be >= 0 and <= 5"
          else Except.ok ()

/-- The float value 2.5, written as an explicitly normalised rational so that
concrete evaluation stays kernel-reducible. -/
def ratTwoPointFive : Rat := ⟨5, 2, by norm_num, by norm_num⟩

/-- Encoding of a binary-lineups history as the Python list value
`create_lineup` receives. -/
def encodeBin (l : List (List Int)) : PyVal :=
  PyVal.pyList (l.map (fun r => PyVal.pyList (r.map PyVal.pyInt)))

/-- Encoding of the `team_stack` argument. -/
def encodeTeam : Option String → PyVal
  | none => PyVal.pyNone
  | some s => PyVal.pyStr s

/-! ### Solver invocation and lineup extraction -/

/-- Result of the external CP-SAT solve of one composed model. An `optimal`
outcome carries the assignment of the decision variables (pitcher vars,
hitter vars, auto-stack team vars). -/
inductive SolveOutcome where
  | optimal : List Bool → List Bool → List Bool → SolveOutcome
  | feasible : SolveOutcome
  | infeasible : SolveOutcome
  | modelInvalid : SolveOutcome

/-- `OptimizerMLB.solve_model`: only an OPTIMAL status yields a solver object;
FEASIBLE, INFEASIBLE and MODEL_INVALID print the status and return `None`.
The submitted model itself is consumed by the external solver. -/
def solve_model (_model : List LinCon) : SolveOutcome →
    Option (List Bool × List Bool × List Bool)
  | SolveOutcome.optimal pv hv tv => some (pv, hv, tv)
  | _ => none

/-- 0/1 coding of a boolean assignment (the binary selection vector built by
`output_lineup`). -/
def encB (vs : List Bool) : List Int := vs.map (fun b => if b then 1 else 0)

/-- Reading a binary selection vector back as an assignment
(`1` means selected). -/
def decodeB (l : List Int) : List Bool := l.map (fun n => n == 1)

/-- The dict returned by `output_lineup`. -/
structure LineupDict where
  pitcher_indexes : List Nat
  hitter_indexes : List Nat
  binary_pitchers : List Int
  binary_hitters : List Int
deriving DecidableEq

/-- The loops of `output_lineup` over the decision variables of a solved
model: row `index` values of selected players in row order, plus the fully
populated binary vectors. -/
def outputDict (P : List Pitcher) (H : List Hitter) (pv hv : List Bool) :
    LineupDict where
  pitcher_indexes :=
    (P.zip pv).filterMap (fun e => if e.2 then some e.1.index else none)
  hitter_indexes :=
    (H.zip hv).filterMap (fun e => if e.2 then some e.1.index else none)
  binary_pitchers := encB pv
  binary_hitters := encB hv

/-- `OptimizerMLB.output_lineup` as `create_lineup` calls it: on a `None`
solver (any non-OPTIMAL solve) the first `solver.Value` access raises
`AttributeError`; with no roster rows the loops do not run and four empty
lists come back. -/
def output_lineup (P : List Pitcher) (H : List Hitter)
    (solver : Option (List Bool × List Bool)) : Except String LineupDict :=
  match solver with
  | some s => Except.ok (outputDict P H s.1 s.2)
  | none =>
    if P.length = 0 ∧ H.length = 0 then Except.ok (outputDict P H [] [])
    else Except.error "AttributeError: NoneType object has no attribute Value"

/-! ### Session state, `create_lineup` and `run_lineups` -/

/-- The mutable attributes of an `OptimizerMLB` instance; `none` models an
attribute that does not exist yet (`hasattr` is false). -/
structure OptState where
  model? : Option (List LinCon)
  pitcher_indexes : Option (List (List Nat))
  hitter_indexes : Option (List (List Nat))
  binary_lineups_pitchers : Option (List (List Int))
  binary_lineups_hitters : Option (List (List Int))

/-- A freshly constructed `OptimizerMLB` (no lazily created attribute
exists). -/
def freshState : OptState := ⟨none, none, none, none, none⟩

/-- `OptimizerMLB.create_lineup`. Validates arguments, lazily builds the base
model on first use, extends a copy of it with the flexible constraints,
solves, and extracts the result; the solve result comes from the external
solver, here the `outcome` oracle. The returned state is the instance state
after the call (the base model is created at most once and never extended in
place). -/
def create_lineup (P : List Pitcher) (H : List Hitter) (st : OptState)
    (binP binH : List (List Int)) (auto : Bool) (team : Option String)
    (stack_num variance : Int) (outcome : SolveOutcome) :
    Except String LineupDict × OptState :=
  match check_create_lineup_args (encodeBin binP) (encodeBin binH)
      (PyVal.pyInt variance) (encodeTeam team) (PyVal.pyBool auto)
      (PyVal.pyInt stack_num) with
  | Except.error e => (Except.error e, st)
  | Except.ok _ =>
    let base := st.model?.getD (baseConstraints P H)
    let st' : OptState := { st with model? := some base }
    let m := composedModelFrom H base binP binH auto team stack_num variance
    match solve_model m outcome with
    | some sol => (output_lineup P H (some (sol.1, sol.2.1)), st')
    | none => (output_lineup P H none, st')

/-- Appending one successful lineup to the four session-history attributes
(the four `append` calls at the end of each `run_lineups` iteration). -/
def appendLineup (st : OptState) (lp : LineupDict) : OptState :=
  { st with
    pitcher_indexes := some (st.pitcher_indexes.getD [] ++ [lp.pitcher_indexes])
    hitter_indexes := some (st.hitter_indexes.getD [] ++ [lp.hitter_indexes])
    binary_lineups_pitchers :=
      some (st.binary_lineups_pitchers.getD [] ++ [lp.binary_pitchers])
    binary_lineups_hitters :=
      some (st.binary_lineups_hitters.getD [] ++ [lp.binary_hitters]) }

/-- The `for i in range(num_lineups)` loop of `run_lineups`. `idx` is the
iteration counter (used to address the solve oracle), the `Nat` argument the
remaining iteration count. Besides the final state, the trace of
`binary_lineups_pitchers` arguments passed to `create_lineup` at each
iteration is returned (observational instrumentation only: it does not feed
back into the computation). An exception from `create_lineup` propagates,
aborting the loop. -/
def run_loop (P : List Pitcher) (H : List Hitter) (auto : Bool)
    (team : Option String) (stack_num variance : Int)
    (oracle : Nat → SolveOutcome) (idx : Nat) :
    Nat → OptState → Except String Unit × OptState × List (List (List Int))
  | 0, st => (Except.ok (), st, [])
  | n + 1, st =>
    let bp := st.binary_lineups_pitchers.getD []
    let bh := st.binary_lineups_hitters.getD []
    match create_lineup P H st bp bh auto team stack_num variance (oracle idx) with
    | (Except.error e, st') => (Except.error e, st', [bp])
    | (Except.ok lp, st') =>
      let next := run_loop P H auto team stack_num variance oracle (idx + 1) n
        (appendLineup st' lp)
      (next.1, next.2.1, bp :: next.2.2)

/-- `OptimizerMLB.run_lineups`: initialise any absent history attribute to the
empty list, then generate `n` lineups sequentially, passing the accumulated
binary history into every `create_lineup` call. -/
def run_lineups (P : List Pitcher) (H : List Hitter) (n : Nat) (auto : Bool)
    (team : Option String) (stack_num variance : Int)
    (oracle : Nat → SolveOutcome) (st : OptState) :
    Except String Unit × OptState × List (List (List Int)) :=
  run_loop P H auto team stack_num variance oracle 0 n
    { st with
      pitcher_indexes := some (st.pitcher_indexes.getD [])
      hitter_indexes := some (st.hitter_indexes.getD [])
      binary_lineups_pitchers := some (st.binary_lineups_pitchers.getD [])
      binary_lineups_hitters := some (st.binary_lineups_hitters.getD []) }

/-! ### CSV export -/

/-- The fixed header row of `csv_output`. -/
def csvHeader : List String := ["P", "P", "C", "1B", "2B", "3B", "SS", "OF", "OF", "OF"]

/-- One exported lineup row: look the stored row ids up in the roster tables
(`index` ids equal row positions after `hitter_pitcher_split` resets the
index), then emit the `Name + ID` strings grouped by position exactly as
`csv_output` filters them. -/
def lineupRow (P : List Pitcher) (H : List Hitter) (pidx hidx : List Nat) :
    List String :=
  let cells : List (String × String) :=
    (pidx.filterMap (fun ix => P[ix]?)).map (fun p => (p.nameId, p.position))
      ++ (hidx.filterMap (fun ix => H[ix]?)).map (fun h => (h.nameId, h.position))
  ((cells.filter (fun c => containsSub "P".toList c.2.toList)).map (fun c => c.1))
    ++ ((cells.filter (fun c => c.2 == "C")).map (fun c => c.1))
    ++ ((cells.filter (fun c => c.2 == "1B")).map (fun c => c.1))
    ++ ((cells.filter (fun c => c.2 == "2B")).map (fun c => c.1))
    ++ ((cells.filter (fun c => c.2 == "3B")).map (fun c => c.1))
    ++ ((cells.filter (fun c => c.2 == "SS")).map (fun c => c.1))
    ++ ((cells.filter (fun c => c.2 == "OF")).map (fun c => c.1))

/-- `OptimizerMLB.csv_output`: asserts the two index-history attributes have
equal length (reading an absent attribute raises `AttributeError`), then
emits the header row followed by one row per stored lineup. -/
def csv_output (P : List Pitcher) (H : List Hitter) (st : OptState) :
    Except String (List (List String)) :=
  match st.pitcher_indexes, st.hitter_indexes with
  | some pidxs, some hidxs =>
    if pidxs.length = hidxs.length then
      Except.ok (csvHeader :: (pidxs.zip hidxs).map (fun e => lineupRow P H e.1 e.2))
    else
      Except.error "length of pitcher_indexes and hitter_indexes attributes must be equal."
  | _, _ => Except.error "AttributeError"

/-! ### Session histories and the variance guarantee -/

/-- A history of binary lineups (pitcher vector, hitter vector pairs) is a
variance-`v` session when each lineup satisfies the variance constraints
built (by `add_variance_constraint`) from all lineups before it — exactly the
models `run_lineups` solves, restricted to their variance part. -/
def SessionOk (v : Int) (hist : List (List Int × List Int)) : Prop :=
  ∀ j, j < hist.length →
    satB
      (add_variance_constraint [] ((hist.take j).map (fun e => e.2))
        ((hist.take j).map (fun e => e.1)) v)
      (decodeB (hist.getD j ([], [])).1) (decodeB (hist.getD j ([], [])).2) []
      = true

instance (v : Int) (hist : List (List Int × List Int)) :
    Decidable (SessionOk v hist) := by
  unfold SessionOk; infer_instance

instance {ε α : Type} [DecidableEq ε] [DecidableEq α] : DecidableEq (Except ε α)
  | Except.error e, Except.error f => decidable_of_iff (e = f) (by simp)
  | Except.error _, Except.ok _ => isFalse (by simp)
  | Except.ok _, Except.error _ => isFalse (by simp)
  | Except.ok a, Except.ok b => decidable_of_iff (a = b) (by simp)

/-- All entries of a binary vector are 0 or 1. -/
def bin01 (l : List Int) : Prop := ∀ x ∈ l, x = 0 ∨ x = 1

instance (l : List Int) : Decidable (bin01 l) := by
  unfold bin01; infer_instance

/-- Number of players shared by two binary selection vectors. -/
def sharedCount (a b : List Int) : Int := (List.zipWith (fun x y => x * y) a b).sum

/-- Hamming distance between two equal-length binary vectors. -/
def hamming (a b : List Int) : Int := (List.zipWith (fun x y => |x - y|) a b).sum

/-! ### A concrete example roster (used for evaluation witnesses) -/

/-- Two pitchers from different teams and games. -/
def exPitchers : List Pitcher :=
  [⟨0, "p one", "P", 7000, 100, "AAA", "QQQ", "G1", "p one (1)"⟩,
   ⟨1, "p two", "P", 7000, 100, "BBB", "RRR", "G2", "p two (2)"⟩]

/-- Eight hitters covering every position quota, four per team, split over the
two games, opposing neither pitcher. -/
def exHitters : List Hitter :=
  [⟨0, "h a", "C", 3000, 50, "CCC", "SSS", "G1", "h a (3)"⟩,
   ⟨1, "h b", "1B", 3000, 50, "CCC", "SSS", "G1", "h b (4)"⟩,
   ⟨2, "h c", "2B", 3000, 50, "CCC", "SSS", "G1", "h c (5)"⟩,
   ⟨3, "h d", "3B", 3000, 50, "CCC", "SSS", "G1", "h d (6)"⟩,
   ⟨4, "h e", "SS", 3000, 50, "DDD", "TTT", "G2", "h e (7)"⟩,
   ⟨5, "h f", "OF", 3000, 50, "DDD", "TTT", "G2", "h f (8)"⟩,
   ⟨6, "h g", "OF", 3000, 50, "DDD", "TTT", "G2", "h g (9)"⟩,
   ⟨7, "h h", "OF", 3000, 50, "DDD", "TTT", "G2", "h h (10)"⟩]

/-- The full-selection assignment over the example roster. -/
def exPv : List Bool := [true, true]

/-- The full-selection hitter assignment over the example roster. -/
def exHv : List Bool := [true, true, true, true, true, true, true, true]

/-- The binary pitcher vector of the example full selection. -/
def exBp : List Int := [1, 1]

/-- The binary hitter vector of the example full selection. -/
def exBh : List Int := [1, 1, 1, 1, 1, 1, 1, 1]

/-- A two-entry session history consisting of the same lineup twice. -/
def exHistDup : List (List Int × List Int) := [(exBp, exBh), (exBp, exBh)]

/-- The rows a boolean assignment selects from a roster table. -/
def sel {α : Type} (l : List α) (vs : List Bool) : List α :=
  ((l.zip vs).filter (fun e => e.2)).map (fun e => e.1)

/-- The arguments of one `create_lineup` call (for reasoning about arbitrary
call sequences). -/
structure CallArgs where
  binP : List (List Int)
  binH : List (List Int)
  auto : Bool
  team : Option String
  stack_num : Int
  variance : Int

/-- Run a sequence of `create_lineup` calls, threading the instance state
(results are discarded; only the state evolution matters here). -/
def runCalls (P : List Pitcher) (H : List Hitter) :
    List (CallArgs × SolveOutcome) → OptState → OptState
  | [], st => st
  | c :: rest, st =>
    runCalls P H rest
      (create_lineup P H st c.1.binP c.1.binH c.1.auto c.1.team c.1.stack_num
        c.1.variance c.2).2

/-! ## General lemmas about linear values and selections -/

theorem dot_nil (vs : List Bool) : dot [] vs = 0 := by
  cases vs <;> rfl

theorem dot_nil_right (cs : List Int) : dot cs [] = 0 := by
  cases cs <;> rfl

theorem dot_cons (c : Int) (cs : List Int) (v : Bool) (vs : List Bool) :
    dot (c :: cs) (v :: vs) = (if v then c else 0) + dot cs vs := rfl

theorem dot_zero_coeffs (cs : List Int) (vs : List Bool) (h : ∀ c ∈ cs, c = 0) :
    dot cs vs = 0 := by
  induction cs generalizing vs with
  | nil => exact dot_nil vs
  | cons c cs ih =>
    cases vs with
    | nil => rfl
    | cons v vs =>
      rw [dot_cons, ih vs (fun x hx => h x (List.mem_cons_of_mem c hx)),
        h c (List.mem_cons_self c cs)]
      simp

theorem dot_replicate_one (vs : List Bool) :
    dot (List.replicate vs.length 1) vs = (countTrue vs : Int) := by
  induction vs with
  | nil => rfl
  | cons v vs ih =>
    rw [List.length_cons, List.replicate_succ, dot_cons, ih]
    cases v <;> simp [countTrue] <;> omega

theorem dot_map_sel {α : Type} (l : List α) (vs : List Bool) (f : α → Int) :
    dot (l.map f) vs = ((sel l vs).map f).sum := by
  induction l generalizing vs with
  | nil => simp [sel, dot_nil]
  | cons a l ih =>
    cases vs with
    | nil => simp [sel, dot_nil_right]
    | cons v vs =>
      cases v
      · simpa [sel, List.zip_cons_cons, dot_cons] using ih vs
      · simpa [sel, List.zip_cons_cons, dot_cons] using ih vs

theorem sum_indicator {α : Type} (l : List α) (p : α → Bool) :
    (l.map (fun x => if p x then (1 : Int) else 0)).sum = ((l.filter p).length : Int) := by
  induction l with
  | nil => rfl
  | cons a l ih =>
    by_cases h : p a <;> simp [h, ih] <;> omega

theorem sel_length {α : Type} (l : List α) (vs : List Bool)
    (h : vs.length = l.length) : (sel l vs).length = countTrue vs := by
  induction l generalizing vs with
  | nil =>
    cases vs with
    | nil => rfl
    | cons v vs => simp at h
  | cons a l ih =>
    cases vs with
    | nil => simp at h
    | cons v vs =>
      simp only [List.length_cons, Nat.succ_inj] at h
      cases v
      · simpa [sel, countTrue, List.zip_cons_cons] using ih vs h
      · simpa [sel, countTrue, List.zip_cons_cons] using ih vs h

theorem dot_basisCoef (vs : List Bool) (i : Nat) (c : Int)
    (hi : i < vs.length) :
    dot (basisCoef vs.length i c) vs = if vs.getD i false then c else 0 := by
  induction vs generalizing i with
  | nil => simp at hi
  | cons v vs ih =>
    rw [show (v :: vs).length = vs.length + 1 from rfl, basisCoef,
      List.range_succ_eq_map, List.map_cons, List.map_map, dot_cons]
    cases i with
    | zero =>
      rw [if_pos rfl,
        dot_zero_coeffs (List.map ((fun j => if j = 0 then c else 0) ∘ Nat.succ)
          (List.range vs.length)) vs (by simp [Function.comp])]
      simp [List.getD_cons_zero]
    | succ k =>
      simp only [List.length_cons, Nat.succ_lt_succ_iff] at hi
      have h0 : (if (0 : Nat) = k + 1 then c else 0) = 0 := if_neg (by omega)
      have hco : List.map ((fun j => if j = k + 1 then c else 0) ∘ Nat.succ)
          (List.range vs.length) =
          (List.range vs.length).map (fun j => if j = k then c else 0) :=
        List.map_congr_left (fun j _ => by
          simp only [Function.comp_apply, Nat.succ_eq_add_one]
          by_cases hj : j = k
          · simp [hj]
          · rw [if_neg hj, if_neg (by omega)])
      rw [h0, hco, List.getD_cons_succ]
      have := ih k hi
      rw [basisCoef] at this
      simp [this]

theorem dot_nonneg_of (cs : List Int) (vs : List Bool)
    (h : ∀ c ∈ cs, 0 ≤ c) : 0 ≤ dot cs vs := by
  induction cs generalizing vs with
  | nil => simp [dot_nil]
  | cons c cs ih =>
    cases vs with
    | nil => simp [dot_nil_right]
    | cons v vs =>
      rw [dot_cons]
      have h1 := h c (List.mem_cons_self c cs)
      have h2 := ih vs (fun x hx => h x (List.mem_cons_of_mem c hx))
      cases v <;> simp <;> omega

theorem satB_append (m₁ m₂ : List LinCon) (pv hv tv : List Bool) :
    satB (m₁ ++ m₂) pv hv tv = (satB m₁ pv hv tv && satB m₂ pv hv tv) :=
  List.all_append

theorem satB_mem {m : List LinCon} {pv hv tv : List Bool} {c : LinCon}
    (hm : satB m pv hv tv = true) (hc : c ∈ m) : holdsB c pv hv tv = true :=
  List.all_eq_true.1 hm c hc

theorem dot_le_of_coeffs_le_one (cs : List Int) (vs : List Bool)
    (h : ∀ c ∈ cs, c ≤ 1) : dot cs vs ≤ (countTrue vs : Int) := by
  induction cs generalizing vs with
  | nil => simp [dot_nil, countTrue]
  | cons c cs ih =>
    cases vs with
    | nil => simp [dot_nil_right, countTrue]
    | cons v vs =>
      rw [dot_cons]
      have h1 := h c (List.mem_cons_self c cs)
      have h2 := ih vs (fun x hx => h x (List.mem_cons_of_mem c hx))
      cases v <;> simp [countTrue] at h2 ⊢ <;> omega

theorem countTrue_pos_exists (vs : List Bool) (h : 1 ≤ countTrue vs) :
    ∃ k, k < vs.length ∧ vs.getD k false = true := by
  induction vs with
  | nil => simp [countTrue] at h
  | cons v vs ih =>
    cases v with
    | true => exact ⟨0, by simp, rfl⟩
    | false =>
      have h' : 1 ≤ countTrue vs := by simpa [countTrue] using h
      obtain ⟨k, hk, hv⟩ := ih h'
      exact ⟨k + 1, by simpa using hk, by simpa [List.getD_cons_succ] using hv⟩

theorem dot_decodeB (a b : List Int) (hb : bin01 b) :
    dot a (decodeB b) = sharedCount a b := by
  induction a generalizing b with
  | nil => simp [dot_nil, sharedCount]
  | cons x a ih =>
    cases b with
    | nil => simp [decodeB, dot_nil_right, sharedCount]
    | cons y b =>
      have hy := hb y (List.mem_cons_self y b)
      have hb' : bin01 b := fun z hz => hb z (List.mem_cons_of_mem y hz)
      simp only [decodeB, List.map_cons, dot_cons, sharedCount,
        List.zipWith_cons_cons, List.sum_cons]
      rw [show (List.zipWith (fun x y => x * y) a b).sum = sharedCount a b from rfl,
        ← ih b hb']
      rcases hy with hy | hy <;> subst hy <;> simp [decodeB]

theorem sharedCount_nonneg (a b : List Int) (ha : bin01 a) (hb : bin01 b) :
    0 ≤ sharedCount a b := by
  induction a generalizing b with
  | nil => simp [sharedCount]
  | cons x a ih =>
    cases b with
    | nil => simp [sharedCount]
    | cons y b =>
      have hx := ha x (List.mem_cons_self x a)
      have hy := hb y (List.mem_cons_self y b)
      have ha' : bin01 a := fun z hz => ha z (List.mem_cons_of_mem x hz)
      have hb' : bin01 b := fun z hz => hb z (List.mem_cons_of_mem y hz)
      have hrec := ih b ha' hb'
      simp only [sharedCount, List.zipWith_cons_cons, List.sum_cons]
      rw [show (List.zipWith (fun x y => x * y) a b).sum = sharedCount a b from rfl]
      have hpt : 0 ≤ x * y := by
        rcases hx with hx | hx <;> rcases hy with hy | hy <;> subst hx <;>
          subst hy <;> norm_num
      omega

theorem hamming_eq_sums (a b : List Int) (ha : bin01 a) (hb : bin01 b)
    (hl : a.length = b.length) :
    hamming a b = a.sum + b.sum - 2 * sharedCount a b := by
  induction a generalizing b with
  | nil =>
    cases b with
    | nil => simp [hamming, sharedCount]
    | cons y b => simp at hl
  | cons x a ih =>
    cases b with
    | nil => simp at hl
    | cons y b =>
      have hx := ha x (List.mem_cons_self x a)
      have hy := hb y (List.mem_cons_self y b)
      have ha' : bin01 a := fun z hz => ha z (List.mem_cons_of_mem x hz)
      have hb' : bin01 b := fun z hz => hb z (List.mem_cons_of_mem y hz)
      have hl' : a.length = b.length := by simpa using hl
      have hrec := ih b ha' hb' hl'
      simp only [hamming, sharedCount, List.zipWith_cons_cons, List.sum_cons]
      rw [show (List.zipWith (fun x y => |x - y|) a b).sum = hamming a b from rfl,
        show (List.zipWith (fun x y => x * y) a b).sum = sharedCount a b from rfl]
      have hpt : |x - y| = x + y - 2 * (x * y) := by
        rcases hx with hx | hx <;> rcases hy with hy | hy <;> subst hx <;>
          subst hy <;> norm_num
      rw [hpt, hrec]
      ring

theorem hamming_append (a₁ a₂ b₁ b₂ : List Int) (h : a₁.length = b₁.length) :
    hamming (a₁ ++ a₂) (b₁ ++ b₂) = hamming a₁ b₁ + hamming a₂ b₂ := by
  simp [hamming, List.zipWith_append _ _ _ _ _ h]

theorem filterMap_if_eq_filter_map {α β : Type} (L : List (α × Bool)) (g : α → β) :
    L.filterMap (fun e => if e.2 then some (g e.1) else none)
      = (L.filter (fun e => e.2)).map (fun e => g e.1) := by
  induction L with
  | nil => rfl
  | cons e L ih =>
    rcases e with ⟨a, b⟩
    cases b <;> simp [ih]

theorem zip_encB_filter {α β : Type} (l : List α) (vs : List Bool) (g : α → β) :
    ((l.zip (encB vs)).filter (fun e => e.2 == 1)).map (fun e => g e.1)
      = ((l.zip vs).filter (fun e => e.2)).map (fun e => g e.1) := by
  induction l generalizing vs with
  | nil => simp [encB]
  | cons a l ih =>
    cases vs with
    | nil => simp [encB]
    | cons v vs =>
      cases v <;> simp [encB, List.zip_cons_cons] <;>
        simpa [encB] using ih vs

/-- Satisfying a composed per-call model in particular satisfies the model it
was built on. -/
theorem satB_base_of_composed {H : List Hitter} {base : List LinCon}
    {binP binH : List (List Int)} {auto : Bool} {team : Option String}
    {s v : Int} {pv hv tv : List Bool}
    (hsat : satB (composedModelFrom H base binP binH auto team s v) pv hv tv
      = true) :
    satB base pv hv tv = true := by
  unfold composedModelFrom add_variance_constraint add_autostack_constraint
    add_teamstack_constraint at hsat
  cases auto <;> cases h : optTruthy team <;> rw [h] at hsat <;>
    simp only [if_true, if_false, Bool.false_eq_true, eq_self_iff_true,
      List.append_assoc, satB_append, Bool.and_eq_true] at hsat <;> tauto

theorem filterMap_if_length {α β : Type} (l : List α) (vs : List Bool)
    (g : α → β) (h : vs.length = l.length) :
    ((l.zip vs).filterMap (fun e => if e.2 then some (g e.1) else none)).length
      = countTrue vs := by
  rw [filterMap_if_eq_filter_map, List.length_map]
  have := sel_length l vs h
  simpa [sel] using this

/-- Any assignment satisfying the base model selects exactly 2 pitchers and
exactly 8 hitters. -/
theorem base_counts {P : List Pitcher} {H : List Hitter} {pv hv tv : List Bool}
    (hp : pv.length = P.length) (hh : hv.length = H.length)
    (hsat : satB (baseConstraints P H) pv hv tv = true) :
    countTrue pv = 2 ∧ countTrue hv = 8 := by
  have h1 := satB_mem hsat
    (show numPitchersCon P.length ∈ baseConstraints P H by simp [baseConstraints])
  have h2 := satB_mem hsat
    (show numHittersCon H.length ∈ baseConstraints P H by simp [baseConstraints])
  simp only [holdsB, numPitchersCon, numHittersCon, decide_eq_true_eq] at h1 h2
  rw [dot_nil, dot_nil, ← hp, dot_replicate_one] at h1
  rw [dot_nil, dot_nil, ← hh, dot_replicate_one] at h2
  omega

/-- Any assignment satisfying the base model meets a position quota
constraint exactly. -/
theorem sat_posCon {P : List Pitcher} {H : List Hitter} {pv hv tv : List Bool}
    (pos : String) (k : Int)
    (hsat : satB (baseConstraints P H) pv hv tv = true)
    (hmem : posCon H pos k ∈ baseConstraints P H) :
    (((sel H hv).filter (fun h => hasPos h.position pos)).length : Int) = k := by
  have h := satB_mem hsat hmem
  simp only [holdsB, posCon, decide_eq_true_eq] at h
  rw [dot_nil, dot_nil, dot_map_sel] at h
  simp only [posBool] at h
  rw [sum_indicator] at h
  omega

theorem satB_base_of_composedModel {P : List Pitcher} {H : List Hitter}
    {binP binH : List (List Int)} {auto : Bool} {team : Option String}
    {s v : Int} {pv hv tv : List Bool}
    (hsat : satB (composedModel P H binP binH auto team s v) pv hv tv = true) :
    satB (baseConstraints P H) pv hv tv = true := by
  unfold composedModel at hsat
  exact satB_base_of_composed hsat

/-- One `create_lineup` call either leaves the stored model untouched or, when
no model exists yet, stores exactly the base model. -/
theorem create_lineup_model_evolution (P : List Pitcher) (H : List Hitter)
    (st : OptState) (binP binH : List (List Int)) (auto : Bool)
    (team : Option String) (s v : Int) (o : SolveOutcome) :
    (create_lineup P H st binP binH auto team s v o).2.model? = st.model?
    ∨ (st.model? = none
      ∧ (create_lineup P H st binP binH auto team s v o).2.model?
        = some (baseConstraints P H)) := by
  unfold create_lineup
  cases hc : check_create_lineup_args (encodeBin binP) (encodeBin binH)
      (PyVal.pyInt v) (encodeTeam team) (PyVal.pyBool auto)
      (PyVal.pyInt s) with
  | error e => simp
  | ok u => cases o <;> cases hm : st.model? <;> simp [solve_model, hm]

theorem runCalls_model_invariant (P : List Pitcher) (H : List Hitter)
    (calls : List (CallArgs × SolveOutcome)) :
    ∀ st : OptState,
      (st.model? = none ∨ st.model? = some (baseConstraints P H)) →
      ((runCalls P H calls st).model? = none
        ∨ (runCalls P H calls st).model? = some (baseConstraints P H)) := by
  induction calls with
  | nil => intro st h; simpa [runCalls] using h
  | cons c rest ih =>
    intro st h
    rw [runCalls]
    apply ih
    rcases create_lineup_model_evolution P H st c.1.binP c.1.binH c.1.auto
      c.1.team c.1.stack_num c.1.variance c.2 with h1 | h2
    · rw [h1]; exact h
    · exact Or.inr h2.2

theorem truthy_encodeTeam (team : Option String) :
    (encodeTeam team).truthy = optTruthy team := by
  cases team <;> rfl

/-- With in-range typed arguments and at most one truthy stacking mode, the
argument check passes. -/
theorem check_encode_ok (binP binH : List (List Int)) (auto : Bool)
    (team : Option String) (s v : Int)
    (h1 : 0 ≤ v) (h2 : v ≤ 10) (h3 : 0 ≤ s) (h4 : s ≤ 5)
    (h5 : ¬(auto = true ∧ optTruthy team = true)) :
    check_create_lineup_args (encodeBin binP) (encodeBin binH) (PyVal.pyInt v)
      (encodeTeam team) (PyVal.pyBool auto) (PyVal.pyInt s) = Except.ok () := by
  have hv1 : (0 : Rat) ≤ (v : Rat) := by exact_mod_cast h1
  have hv2 : ((v : Rat)) ≤ 10 := by exact_mod_cast h2
  have hs1 : (0 : Rat) ≤ (s : Rat) := by exact_mod_cast h3
  have hs2 : ((s : Rat)) ≤ 5 := by exact_mod_cast h4
  unfold check_create_lineup_args
  rw [if_neg (by simp [encodeBin, PyVal.isList])]
  rw [if_neg (by simp [encodeBin, PyVal.isList])]
  rw [if_neg (by simp [PyVal.isInt])]
  simp only [pyNum?]
  rw [if_neg (not_not_intro ⟨hv1, hv2⟩)]
  rw [if_neg (by cases team <;> simp [encodeTeam, PyVal.isStrOrNone])]
  rw [if_neg (by
    intro hc
    refine h5 ⟨?_, ?_⟩
    · simpa [PyVal.truthy] using hc.1
    · rw [← truthy_encodeTeam]; exact hc.2)]
  rw [if_neg (not_not_intro ⟨hs1, hs2⟩)]

/-- With valid arguments, an OPTIMAL solve makes `create_lineup` return the
extracted dict, and the only state change is (possibly) storing the lazily
built base model. -/
theorem create_lineup_optimal (P : List Pitcher) (H : List Hitter)
    (st : OptState) (binP binH : List (List Int)) (auto : Bool)
    (team : Option String) (s v : Int) (pv hv tv : List Bool)
    (h1 : 0 ≤ v) (h2 : v ≤ 10) (h3 : 0 ≤ s) (h4 : s ≤ 5)
    (h5 : ¬(auto = true ∧ optTruthy team = true)) :
    create_lineup P H st binP binH auto team s v (SolveOutcome.optimal pv hv tv)
      = (Except.ok (outputDict P H pv hv),
        { st with model? := some (st.model?.getD (baseConstraints P H)) }) := by
  unfold create_lineup
  rw [check_encode_ok binP binH auto team s v h1 h2 h3 h4 h5]
  rfl

/-- Loop invariant of `run_lineups`: with valid arguments and an all-OPTIMAL
oracle, the loop succeeds, appends exactly one entry per iteration to each of
the four history attributes, and passes the full accumulated pitcher history
into `create_lineup` at every iteration. -/
theorem run_loop_spec (P : List Pitcher) (H : List Hitter) (auto : Bool)
    (team : Option String) (s v : Int) (oracle : Nat → SolveOutcome)
    (h1 : 0 ≤ v) (h2 : v ≤ 10) (h3 : 0 ≤ s) (h4 : s ≤ 5)
    (h5 : ¬(auto = true ∧ optTruthy team = true))
    (horacle : ∀ k, ∃ pv hv tv, oracle k = SolveOutcome.optimal pv hv tv) :
    ∀ (n idx : Nat) (st : OptState) (PI HI : List (List Nat))
      (BP BH : List (List Int)),
      st.pitcher_indexes = some PI → st.hitter_indexes = some HI →
      st.binary_lineups_pitchers = some BP →
      st.binary_lineups_hitters = some BH →
      (run_loop P H auto team s v oracle idx n st).1 = Except.ok ()
      ∧ ∃ newPI newHI newBP newBH,
          newPI.length = n ∧ newHI.length = n ∧ newBP.length = n
          ∧ newBH.length = n
          ∧ (run_loop P H auto team s v oracle idx n st).2.1.pitcher_indexes
            = some (PI ++ newPI)
          ∧ (run_loop P H auto team s v oracle idx n st).2.1.hitter_indexes
            = some (HI ++ newHI)
          ∧ (run_loop P H auto team s v oracle idx n st).2.1.binary_lineups_pitchers
            = some (BP ++ newBP)
          ∧ (run_loop P H auto team s v oracle idx n st).2.1.binary_lineups_hitters
            = some (BH ++ newBH)
          ∧ (run_loop P H auto team s v oracle idx n st).2.2.length = n
          ∧ (∀ k, k < n →
              (run_loop P H auto team s v oracle idx n st).2.2.getD k []
                = BP ++ newBP.take k) := by
  intro n
  induction n with
  | zero =>
    intro idx st PI HI BP BH hPI hHI hBP hBH
    refine ⟨rfl, [], [], [], [], rfl, rfl, rfl, rfl, ?_, ?_, ?_, ?_, rfl, ?_⟩
    · rw [List.append_nil]; exact hPI
    · rw [List.append_nil]; exact hHI
    · rw [List.append_nil]; exact hBP
    · rw [List.append_nil]; exact hBH
    · intro k hk; omega
  | succ m ih =>
    intro idx st PI HI BP BH hPI hHI hBP hBH
    obtain ⟨pv, hv, tv, hor⟩ := horacle idx
    have hcl := create_lineup_optimal P H st BP BH auto team s v pv hv tv
      h1 h2 h3 h4 h5
    rw [run_loop, hBP, hBH]
    simp only [Option.getD_some, hor, hcl]
    set lp := outputDict P H pv hv with hlp
    set st2 := appendLineup
      { st with model? := some (st.model?.getD (baseConstraints P H)) } lp
      with hst2
    obtain ⟨hok, nPI, nHI, nBP, nBH, l1, l2, l3, l4, e1, e2, e3, e4, tl, tr⟩ :=
      ih (idx + 1) st2 (PI ++ [lp.pitcher_indexes]) (HI ++ [lp.hitter_indexes])
        (BP ++ [lp.binary_pitchers]) (BH ++ [lp.binary_hitters])
        (by simp [hst2, appendLineup, hPI])
        (by simp [hst2, appendLineup, hHI])
        (by simp [hst2, appendLineup, hBP])
        (by simp [hst2, appendLineup, hBH])
    refine ⟨hok, lp.pitcher_indexes :: nPI, lp.hitter_indexes :: nHI,
      lp.binary_pitchers :: nBP, lp.binary_hitters :: nBH,
      by simp [l1], by simp [l2], by simp [l3], by simp [l4],
      ?_, ?_, ?_, ?_, by simp [tl], ?_⟩
    · rw [e1]; simp
    · rw [e2]; simp
    · rw [e3]; simp
    · rw [e4]; simp
    · intro k hk
      cases k with
      | zero => simp
      | succ k' =>
        have hk' : k' < m := by omega
        have htr := tr k' hk'
        simp only [List.getD_cons_succ]
        rw [htr, List.take_succ_cons]
        simp

/-! ## Claim theorems -/

/-- Claim C1 (code-bug evidence): on every non-OPTIMAL solver status
(`FEASIBLE`, `INFEASIBLE`, `MODEL_INVALID`), `solve_model` hands `None` back
to `create_lineup`, which passes it straight into `output_lineup`; on a
non-empty roster the call therefore dies with an `AttributeError` instead of
returning a distinguishable failure value — evaluated here on the example
roster for all three non-OPTIMAL statuses. -/
theorem c1_nonoptimal_solve_crashes :
    solve_model (baseConstraints exPitchers exHitters) SolveOutcome.infeasible = none
    ∧ (create_lineup exPitchers exHitters freshState [] [] false none 4 0
        SolveOutcome.infeasible).1
      = Except.error "AttributeError: NoneType object has no attribute Value"
    ∧ (create_lineup exPitchers exHitters freshState [] [] false none 4 0
        SolveOutcome.feasible).1
      = Except.error "AttributeError: NoneType object has no attribute Value"
    ∧ (create_lineup exPitchers exHitters freshState [] [] false none 4 0
        SolveOutcome.modelInvalid).1
      = Except.error "AttributeError: NoneType object has no attribute Value" := by
  decide

/-- Claim C6: every `create_lineup` call leaves the stored base model
unchanged — the call either preserves `model?` exactly or (first use) sets it
to the base constraints; consequently, after any sequence of `create_lineup`
calls starting from a fresh instance, the stored model is still exactly the
session-constant base model (or not yet created). Flexible constraints only
ever live in the per-call copy. -/
theorem c6_base_model_never_mutated (P : List Pitcher) (H : List Hitter)
    (st : OptState) (c : CallArgs) (o : SolveOutcome)
    (calls : List (CallArgs × SolveOutcome)) :
    ((create_lineup P H st c.binP c.binH c.auto c.team c.stack_num c.variance o).2.model?
        = st.model?
      ∨ (st.model? = none
        ∧ (create_lineup P H st c.binP c.binH c.auto c.team c.stack_num c.variance o).2.model?
          = some (baseConstraints P H)))
    ∧ ((runCalls P H calls freshState).model? = none
      ∨ (runCalls P H calls freshState).model? = some (baseConstraints P H)) :=
  ⟨create_lineup_model_evolution P H st c.binP c.binH c.auto c.team c.stack_num
      c.variance o,
    runCalls_model_invariant P H calls freshState (Or.inl rfl)⟩

/-- Claim C9: in every dict built by `output_lineup`, the index lists list, in
row order, the `index` field of exactly those roster rows whose binary entry
is 1. -/
theorem c9_output_indexes_match_binaries (P : List Pitcher) (H : List Hitter)
    (pv hv : List Bool) :
    (outputDict P H pv hv).pitcher_indexes
      = ((P.zip (outputDict P H pv hv).binary_pitchers).filter
          (fun e => e.2 == 1)).map (fun e => e.1.index)
    ∧ (outputDict P H pv hv).hitter_indexes
      = ((H.zip (outputDict P H pv hv).binary_hitters).filter
          (fun e => e.2 == 1)).map (fun e => e.1.index) := by
  constructor <;>
    · simp only [outputDict]
      rw [filterMap_if_eq_filter_map, zip_encB_filter]

/-- Claim C5: the binary vectors built by `output_lineup` carry one 0/1 entry
per roster row (fully populated even when 0), and for an assignment coming
from an OPTIMAL solve of the composed per-call model, the returned index
lists have length exactly 2 (pitchers) and 8 (hitters). -/
theorem c5_output_shapes (P : List Pitcher) (H : List Hitter)
    (binP binH : List (List Int)) (auto : Bool) (team : Option String)
    (s v : Int) (pv hv tv : List Bool)
    (hp : pv.length = P.length) (hh : hv.length = H.length) :
    (outputDict P H pv hv).binary_pitchers.length = P.length
    ∧ (outputDict P H pv hv).binary_hitters.length = H.length
    ∧ bin01 (outputDict P H pv hv).binary_pitchers
    ∧ bin01 (outputDict P H pv hv).binary_hitters
    ∧ (satB (composedModel P H binP binH auto team s v) pv hv tv = true →
        (outputDict P H pv hv).pitcher_indexes.length = 2
        ∧ (outputDict P H pv hv).hitter_indexes.length = 8) := by
  refine ⟨?_, ?_, ?_, ?_, ?_⟩
  · simp [outputDict, encB, hp]
  · simp [outputDict, encB, hh]
  · intro x hx
    simp only [outputDict, encB, List.mem_map] at hx
    obtain ⟨b, _, hb⟩ := hx
    cases b <;> simp_all
  · intro x hx
    simp only [outputDict, encB, List.mem_map] at hx
    obtain ⟨b, _, hb⟩ := hx
    cases b <;> simp_all
  · intro hsat
    have hbase := satB_base_of_composedModel hsat
    have hcounts := base_counts hp hh hbase
    constructor
    · simp only [outputDict]
      rw [filterMap_if_length _ _ _ hp]
      exact hcounts.1
    · simp only [outputDict]
      rw [filterMap_if_length _ _ _ hh]
      exact hcounts.2

/-- Witness for C5 on the example roster and its full-selection OPTIMAL
assignment. -/
theorem c5_output_shapes_witness :
    (outputDict exPitchers exHitters exPv exHv).binary_pitchers.length
      = exPitchers.length
    ∧ (outputDict exPitchers exHitters exPv exHv).pitcher_indexes.length = 2
    ∧ (outputDict exPitchers exHitters exPv exHv).hitter_indexes.length = 8 := by
  have h := c5_output_shapes exPitchers exHitters [] [] false none 4 0 exPv exHv []
    (by decide) (by decide)
  exact ⟨h.1, (h.2.2.2.2 (by decide)).1, (h.2.2.2.2 (by decide)).2⟩

/-- Claim C2: any assignment from an OPTIMAL solve of the composed per-call
model selects exactly 2 pitchers and 8 hitters, stays within the 50000 salary
cap, and hits the exact hitter position quotas C=1, 1B=1, 2B=1, 3B=1, SS=1,
OF=3. -/
theorem c2_optimal_lineup_base_constraints (P : List Pitcher) (H : List Hitter)
    (binP binH : List (List Int)) (auto : Bool) (team : Option String)
    (s v : Int) (pv hv tv : List Bool)
    (hp : pv.length = P.length) (hh : hv.length = H.length)
    (hsat : satB (composedModel P H binP binH auto team s v) pv hv tv = true) :
    (sel P pv).length = 2
    ∧ (sel H hv).length = 8
    ∧ ((sel P pv).map (fun p => p.salary)).sum
        + ((sel H hv).map (fun h => h.salary)).sum ≤ 50000
    ∧ ((sel H hv).filter (fun h => hasPos h.position "C")).length = 1
    ∧ ((sel H hv).filter (fun h => hasPos h.position "1B")).length = 1
    ∧ ((sel H hv).filter (fun h => hasPos h.position "2B")).length = 1
    ∧ ((sel H hv).filter (fun h => hasPos h.position "3B")).length = 1
    ∧ ((sel H hv).filter (fun h => hasPos h.position "SS")).length = 1
    ∧ ((sel H hv).filter (fun h => hasPos h.position "OF")).length = 3 := by
  have hbase := satB_base_of_composedModel hsat
  have hcounts := base_counts hp hh hbase
  refine ⟨?_, ?_, ?_, ?_, ?_, ?_, ?_, ?_, ?_⟩
  · rw [sel_length P pv hp]; exact hcounts.1
  · rw [sel_length H hv hh]; exact hcounts.2
  · have h := satB_mem hbase
      (show salaryCon P H ∈ baseConstraints P H by simp [baseConstraints])
    simp only [holdsB, salaryCon, decide_eq_true_eq] at h
    rw [dot_nil, dot_map_sel, dot_map_sel] at h
    omega
  · exact_mod_cast sat_posCon "C" 1 hbase (by simp [baseConstraints])
  · exact_mod_cast sat_posCon "1B" 1 hbase (by simp [baseConstraints])
  · exact_mod_cast sat_posCon "2B" 1 hbase (by simp [baseConstraints])
  · exact_mod_cast sat_posCon "3B" 1 hbase (by simp [baseConstraints])
  · exact_mod_cast sat_posCon "SS" 1 hbase (by simp [baseConstraints])
  · exact_mod_cast sat_posCon "OF" 3 hbase (by simp [baseConstraints])

/-- Witness for C2 on the example roster and its full-selection OPTIMAL
assignment. -/
theorem c2_witness :
    (sel exPitchers exPv).length = 2
    ∧ (sel exHitters exHv).length = 8
    ∧ ((sel exHitters exHv).filter (fun h => hasPos h.position "OF")).length = 3 := by
  have h := c2_optimal_lineup_base_constraints exPitchers exHitters [] [] false
    none 4 0 exPv exHv [] (by decide) (by decide) (by decide)
  exact ⟨h.1, h.2.1, h.2.2.2.2.2.2.2.2⟩

/-- Claim C8: the base model contains, for every pitcher row `i`, the
constraint `8*P[i] + sum(H*opp_dummy[team_i]) <= 8`; under any satisfying
assignment a selected pitcher forces zero selected opposing hitters, and for
an unselected pitcher the constraint is automatically satisfied (the
opposing-hitter count never exceeds the 8 selected hitters). -/
theorem c8_pitcher_opponent_exclusion (P : List Pitcher) (H : List Hitter)
    (pv hv tv : List Bool) (i : Nat) (hi : i < P.length)
    (hp : pv.length = P.length) (hh : hv.length = H.length)
    (hsat : satB (baseConstraints P H) pv hv tv = true) :
    oppCon P H i ∈ baseConstraints P H
    ∧ (pv.getD i false = true →
        ((sel H hv).filter (fun h => h.opp == (P.getD i default).team)).length = 0)
    ∧ (pv.getD i false = false → holdsB (oppCon P H i) pv hv tv = true) := by
  have hmem : oppCon P H i ∈ baseConstraints P H := by
    have h1 : oppCon P H i ∈ (List.range P.length).map (oppCon P H) :=
      List.mem_map_of_mem _ (List.mem_range.2 hi)
    unfold baseConstraints
    exact List.mem_append_left _ (List.mem_append_left _
      (List.mem_append_right _ h1))
  have hbasis : dot (basisCoef P.length i 8) pv
      = if pv.getD i false then 8 else 0 := by
    rw [← hp]
    exact dot_basisCoef pv i 8 (by omega)
  have h := satB_mem hsat hmem
  simp only [holdsB, oppCon, decide_eq_true_eq] at h
  rw [dot_nil, dot_map_sel] at h
  simp only [ind] at h
  rw [sum_indicator, hbasis] at h
  refine ⟨hmem, ?_, ?_⟩
  · intro htrue
    rw [htrue] at h
    simp only [if_true] at h
    omega
  · intro hfalse
    simp only [holdsB, oppCon, decide_eq_true_eq]
    rw [dot_nil, dot_map_sel]
    simp only [ind]
    rw [sum_indicator, hbasis, hfalse]
    have hle : ((sel H hv).filter
        (fun h => h.opp == (P.getD i default).team)).length ≤ (sel H hv).length :=
      List.length_filter_le _ _
    have h8 : (sel H hv).length = 8 := by
      rw [sel_length H hv hh]; exact (base_counts hp hh hsat).2
    simp only [Bool.false_eq_true, if_false]
    omega

/-- Claim C7: under any satisfying assignment of the composed model with
`auto_stack=True` and `stack_num = s`, some team supplies at least `s`
selected hitters; with `team_stack = T` (a truthy team string) and
`stack_num = s`, team `T` itself supplies at least `s` selected hitters. -/
theorem c7_stacking_guarantees (P : List Pitcher) (H : List Hitter)
    (binP binH : List (List Int)) (s v : Int) (T : String)
    (pvA hvA tvA pvB hvB tvB : List Bool)
    (htv : tvA.length = (dummyCols (H.map (fun h => h.team))).length)
    (hT : T ≠ "")
    (hsatA : satB (composedModel P H binP binH true none s v) pvA hvA tvA = true)
    (hsatB : satB (composedModel P H binP binH false (some T) s v) pvB hvB tvB
      = true) :
    (∃ t ∈ dummyCols (H.map (fun h => h.team)),
      s ≤ (((sel H hvA).filter (fun h => h.team == t)).length : Int))
    ∧ s ≤ (((sel H hvB).filter (fun h => h.team == T)).length : Int) := by
  constructor
  · -- auto-stack part
    unfold composedModel composedModelFrom add_autostack_constraint at hsatA
    simp only [if_true, optTruthy, Bool.false_eq_true, if_false,
      satB_append, Bool.and_eq_true] at hsatA
    obtain ⟨⟨hm1, hper⟩, hone⟩ := hsatA
    -- at least one team helper variable is set
    simp only [satB, List.all_cons, List.all_nil, Bool.and_true, holdsB,
      decide_eq_true_eq] at hone
    rw [dot_nil, dot_nil, ← htv, dot_replicate_one] at hone
    obtain ⟨k, hk, hkt⟩ := countTrue_pos_exists tvA (by omega)
    have hk' : k < (dummyCols (H.map (fun h => h.team))).length := htv ▸ hk
    -- the per-team constraint for that team
    have hcon := satB_mem hper
      (List.mem_map_of_mem _ (List.mem_range.2 hk'))
    simp only [holdsB, decide_eq_true_eq] at hcon
    rw [dot_nil, dot_map_sel, ← htv] at hcon
    rw [dot_basisCoef tvA k (-s) hk, hkt, if_pos rfl] at hcon
    simp only [ind] at hcon
    rw [sum_indicator] at hcon
    refine ⟨(dummyCols (H.map (fun h => h.team))).getD k "", ?_, ?_⟩
    · rw [List.getD_eq_getElem _ _ hk']
      exact List.getElem_mem hk'
    · omega
  · -- team-stack part
    unfold composedModel composedModelFrom add_teamstack_constraint at hsatB
    have hopt : optTruthy (some T) = true := by
      simp [optTruthy, hT]
    rw [hopt] at hsatB
    simp only [if_true, Bool.false_eq_true, if_false, satB_append,
      Bool.and_eq_true] at hsatB
    obtain ⟨hm1, hts⟩ := hsatB
    simp only [satB, List.all_cons, List.all_nil, Bool.and_true, holdsB,
      decide_eq_true_eq, Option.getD_some] at hts
    rw [dot_nil, dot_nil, dot_map_sel] at hts
    simp only [ind] at hts
    rw [sum_indicator] at hts
    omega

/-- Witness for C7 on the example roster: with `stack_num = 4` both stack
modes are witnessed by team CCC supplying four selected hitters. -/
theorem c7_witness :
    (∃ t ∈ dummyCols (exHitters.map (fun h => h.team)),
      (4 : Int) ≤ (((sel exHitters exHv).filter (fun h => h.team == t)).length : Int))
    ∧ (4 : Int)
      ≤ (((sel exHitters exHv).filter (fun h => h.team == "CCC")).length : Int) :=
  c7_stacking_guarantees exPitchers exHitters [] [] 4 0 "CCC" exPv exHv
    [true, false] exPv exHv [] (by decide) (by decide) (by decide) (by decide)

/-- Claim C4 (amended): a call with `variance` outside [0,10] (or not an
int), `stack_num` comparing outside [0,5], both `auto_stack` and `team_stack`
truthy, or a non-list binary history or non-str/None `team_stack`, fails the
argument check before any model building or solve; the check passing implies
every one of the checks the source actually performs. `team_stack` being a
known team key and the types of `stack_num`/`auto_stack` are NOT among those
checks (see the counterexample). -/
theorem c4_validation_amended (blp blh variance team_stack auto_stack stack_num :
    PyVal) :
    (check_create_lineup_args blp blh variance team_stack auto_stack stack_num
        = Except.ok () →
      blp.isList = true ∧ blh.isList = true ∧ variance.isInt = true
        ∧ (∃ q, pyNum? variance = some q ∧ 0 ≤ q ∧ q ≤ 10)
        ∧ team_stack.isStrOrNone = true
        ∧ ¬(auto_stack.truthy = true ∧ team_stack.truthy = true)
        ∧ (∃ q, pyNum? stack_num = some q ∧ 0 ≤ q ∧ q ≤ 5))
    ∧ (∀ (P : List Pitcher) (H : List Hitter) (st : OptState)
        (binP binH : List (List Int)) (auto : Bool) (team : Option String)
        (s v : Int) (outcome : SolveOutcome) (e : String),
        check_create_lineup_args (encodeBin binP) (encodeBin binH)
            (PyVal.pyInt v) (encodeTeam team) (PyVal.pyBool auto)
            (PyVal.pyInt s) = Except.error e →
        create_lineup P H st binP binH auto team s v outcome
          = (Except.error e, st)) := by
  constructor
  · intro h
    unfold check_create_lineup_args at h
    by_cases h1 : blp.isList = true
    case neg => rw [if_pos h1] at h; exact absurd h (by simp)
    rw [if_neg (not_not_intro h1)] at h
    by_cases h2 : blh.isList = true
    case neg => rw [if_pos h2] at h; exact absurd h (by simp)
    rw [if_neg (not_not_intro h2)] at h
    by_cases h3 : variance.isInt = true
    case neg => rw [if_pos h3] at h; exact absurd h (by simp)
    rw [if_neg (not_not_intro h3)] at h
    cases hq : pyNum? variance with
    | none => rw [hq] at h; exact absurd h (by simp)
    | some q =>
      rw [hq] at h
      simp only [] at h
      by_cases h4 : 0 ≤ q ∧ q ≤ 10
      case neg => rw [if_pos h4] at h; exact absurd h (by simp)
      rw [if_neg (not_not_intro h4)] at h
      by_cases h5 : team_stack.isStrOrNone = true
      case neg => rw [if_pos h5] at h; exact absurd h (by simp)
      rw [if_neg (not_not_intro h5)] at h
      by_cases h6 : auto_stack.truthy = true ∧ team_stack.truthy = true
      case pos => rw [if_pos h6] at h; exact absurd h (by simp)
      rw [if_neg h6] at h
      cases hq2 : pyNum? stack_num with
      | none => rw [hq2] at h; exact absurd h (by simp)
      | some q2 =>
        rw [hq2] at h
        simp only [] at h
        by_cases h7 : 0 ≤ q2 ∧ q2 ≤ 5
        case neg => rw [if_pos h7] at h; exact absurd h (by simp)
        exact ⟨h1, h2, h3, ⟨q, rfl, h4.1, h4.2⟩, h5, h6, ⟨q2, rfl, h7.1, h7.2⟩⟩
  · intro P H st binP binH auto team s v outcome e he
    simp [create_lineup, he]

/-- Counterexample for C4 as frozen: a wrong-typed `stack_num` (the float 2.5)
passes validation untouched, and an unknown `team_stack` key (ZZZ, not a team
of the example roster) also passes validation — neither fails fast with a
configuration error before the solve path. -/
theorem c4_counterexample :
    check_create_lineup_args (encodeBin []) (encodeBin []) (PyVal.pyInt 0)
        PyVal.pyNone (PyVal.pyBool false) (PyVal.pyFloat ratTwoPointFive)
      = Except.ok ()
    ∧ check_create_lineup_args (encodeBin []) (encodeBin []) (PyVal.pyInt 0)
        (PyVal.pyStr "ZZZ") (PyVal.pyBool false) (PyVal.pyInt 4)
      = Except.ok ()
    ∧ ¬ ("ZZZ" ∈ dummyCols (exHitters.map (fun h => h.team))) := by
  refine ⟨by decide, by decide, by decide⟩

/-- Witness for C4 (amended): an out-of-range `variance` of 11 is rejected by
the check, and the corresponding `create_lineup` call fails before any model
building with the specific message. -/
theorem c4_witness :
    check_create_lineup_args (encodeBin []) (encodeBin []) (PyVal.pyInt 11)
        PyVal.pyNone (PyVal.pyBool false) (PyVal.pyInt 4) ≠ Except.ok ()
    ∧ create_lineup exPitchers exHitters freshState [] [] false none 4 11
        SolveOutcome.infeasible
      = (Except.error "variance must be >= 0 and <= 10", freshState) := by
  constructor
  · intro hok
    obtain ⟨_, _, _, ⟨q, hq, _, hle⟩, _⟩ :=
      (c4_validation_amended (encodeBin []) (encodeBin []) (PyVal.pyInt 11)
        PyVal.pyNone (PyVal.pyBool false) (PyVal.pyInt 4)).1 hok
    simp only [pyNum?, Option.some_inj] at hq
    rw [← hq] at hle
    norm_num at hle
  · exact (c4_validation_amended (encodeBin []) (encodeBin []) (PyVal.pyInt 11)
      PyVal.pyNone (PyVal.pyBool false) (PyVal.pyInt 4)).2 exPitchers exHitters
      freshState [] [] false none 4 11 SolveOutcome.infeasible
      "variance must be >= 0 and <= 10" (by decide)

/-- Claim C3: in a variance-`v` session, any two lineups share at most
`10 - v` players; when both lineups have the full 10 selections, the Hamming
distance between their concatenated binary vectors is at least `v` (it is in
fact at least `2v`); and `v = 10` forbids any shared player. The `v = 0` case
permitting identical lineups is exhibited by the witness, whose session holds
the same lineup twice. -/
theorem c3_variance_pairwise (v : Int) (hist : List (List Int × List Int))
    (i j : Nat) (hij : i < j) (hj : j < hist.length) (hv0 : 0 ≤ v)
    (hses : SessionOk v hist)
    (hbin : ∀ e ∈ hist, bin01 e.1 ∧ bin01 e.2)
    (hlenP : (hist.getD i ([], [])).1.length = (hist.getD j ([], [])).1.length)
    (hlenH : (hist.getD i ([], [])).2.length = (hist.getD j ([], [])).2.length) :
    sharedCount (hist.getD i ([], [])).1 (hist.getD j ([], [])).1
      + sharedCount (hist.getD i ([], [])).2 (hist.getD j ([], [])).2 ≤ 10 - v
    ∧ ((hist.getD i ([], [])).1.sum + (hist.getD i ([], [])).2.sum = 10 →
        (hist.getD j ([], [])).1.sum + (hist.getD j ([], [])).2.sum = 10 →
        v ≤ hamming ((hist.getD i ([], [])).1 ++ (hist.getD i ([], [])).2)
          ((hist.getD j ([], [])).1 ++ (hist.getD j ([], [])).2))
    ∧ (v = 10 →
        sharedCount (hist.getD i ([], [])).1 (hist.getD j ([], [])).1 = 0
        ∧ sharedCount (hist.getD i ([], [])).2 (hist.getD j ([], [])).2 = 0) := by
  have hij' : i < hist.length := Nat.lt_trans hij hj
  have hmemi : hist.getD i ([], []) ∈ hist := by
    rw [List.getD_eq_getElem hist ([], []) hij']
    exact List.getElem_mem hij'
  have hmemj : hist.getD j ([], []) ∈ hist := by
    rw [List.getD_eq_getElem hist ([], []) hj]
    exact List.getElem_mem hj
  obtain ⟨hbinP_i, hbinH_i⟩ := hbin _ hmemi
  obtain ⟨hbinP_j, hbinH_j⟩ := hbin _ hmemj
  have hmain : sharedCount (hist.getD i ([], [])).1 (hist.getD j ([], [])).1
      + sharedCount (hist.getD i ([], [])).2 (hist.getD j ([], [])).2
      ≤ 10 - v := by
    have hsat := hses j hj
    unfold add_variance_constraint at hsat
    rw [List.nil_append, List.zip_map', List.map_map] at hsat
    have hitake : i < (hist.take j).length := by
      rw [List.length_take]
      omega
    have hgetTake : (hist.take j).getD i ([], []) = hist.getD i ([], []) := by
      rw [List.getD_eq_getElem _ _ hitake, List.getD_eq_getElem hist ([], []) hij',
        List.getElem_take]
    have hmemTake : hist.getD i ([], []) ∈ hist.take j := by
      rw [← hgetTake, List.getD_eq_getElem _ _ hitake]
      exact List.getElem_mem hitake
    have hcon := satB_mem hsat (List.mem_map_of_mem _ hmemTake)
    simp only [Function.comp, holdsB, decide_eq_true_eq] at hcon
    rw [dot_nil_right, dot_decodeB _ _ hbinP_j, dot_decodeB _ _ hbinH_j] at hcon
    omega
  refine ⟨hmain, ?_, ?_⟩
  · intro hsi hsj
    rw [hamming_append _ _ _ _ hlenP,
      hamming_eq_sums _ _ hbinP_i hbinP_j hlenP,
      hamming_eq_sums _ _ hbinH_i hbinH_j hlenH]
    omega
  · intro hv10
    have h1 := sharedCount_nonneg _ _ hbinP_i hbinP_j
    have h2 := sharedCount_nonneg _ _ hbinH_i hbinH_j
    omega

/-- Witness for C3: a variance-0 session holding the same full lineup twice —
`v = 0` permits identical lineups, and the shared-player bound `10 - 0` holds
with equality. -/
theorem c3_witness :
    sharedCount (exHistDup.getD 0 ([], [])).1 (exHistDup.getD 1 ([], [])).1
      + sharedCount (exHistDup.getD 0 ([], [])).2 (exHistDup.getD 1 ([], [])).2
      ≤ 10 - 0 :=
  (c3_variance_pairwise 0 exHistDup 0 1 (by decide) (by decide) (by decide)
    (by decide) (by decide) (by decide) (by decide)).1

/-- `csv_output` on a state with equal-length index histories emits the header
plus one row per stored lineup. -/
theorem csv_output_of_fields (P : List Pitcher) (H : List Hitter)
    (st' : OptState) (pidxs : List (List Nat)) (hidxs : List (List Nat))
    (hpi : st'.pitcher_indexes = some pidxs)
    (hhi : st'.hitter_indexes = some hidxs)
    (hl : pidxs.length = hidxs.length) :
    csv_output P H st'
      = Except.ok (csvHeader
        :: ((pidxs.zip hidxs).map (fun e => lineupRow P H e.1 e.2))) := by
  unfold csv_output
  rw [hpi, hhi]
  simp only [if_pos hl]

/-- Claim C10: `run_lineups` initialises the four history attributes to `[]`
only when absent and otherwise keeps their contents, appends exactly one
entry per generated lineup, and passes the full accumulated binary history
(earlier calls included) into `create_lineup` at every iteration, so each new
lineup is diversity-constrained against all earlier lineups; `csv_output`
afterwards exports one row per lineup of the combined history plus the
header. -/
theorem c10_session_accumulation (P : List Pitcher) (H : List Hitter) (n : Nat)
    (auto : Bool) (team : Option String) (s v : Int)
    (oracle : Nat → SolveOutcome) (st : OptState)
    (h1 : 0 ≤ v) (h2 : v ≤ 10) (h3 : 0 ≤ s) (h4 : s ≤ 5)
    (h5 : ¬(auto = true ∧ optTruthy team = true))
    (horacle : ∀ k, ∃ pv hv tv, oracle k = SolveOutcome.optimal pv hv tv)
    (hlen0 : (st.pitcher_indexes.getD []).length
      = (st.hitter_indexes.getD []).length) :
    (run_lineups P H n auto team s v oracle st).1 = Except.ok ()
    ∧ ∃ newPI newHI newBP newBH,
        newPI.length = n ∧ newHI.length = n ∧ newBP.length = n
        ∧ newBH.length = n
        ∧ (run_lineups P H n auto team s v oracle st).2.1.pitcher_indexes
          = some (st.pitcher_indexes.getD [] ++ newPI)
        ∧ (run_lineups P H n auto team s v oracle st).2.1.hitter_indexes
          = some (st.hitter_indexes.getD [] ++ newHI)
        ∧ (run_lineups P H n auto team s v oracle st).2.1.binary_lineups_pitchers
          = some (st.binary_lineups_pitchers.getD [] ++ newBP)
        ∧ (run_lineups P H n auto team s v oracle st).2.1.binary_lineups_hitters
          = some (st.binary_lineups_hitters.getD [] ++ newBH)
        ∧ (∀ k, k < n →
            (run_lineups P H n auto team s v oracle st).2.2.getD k []
              = st.binary_lineups_pitchers.getD [] ++ newBP.take k)
        ∧ ∃ rows, csv_output P H (run_lineups P H n auto team s v oracle st).2.1
              = Except.ok rows
            ∧ rows.length = 1 + (st.pitcher_indexes.getD []).length + n := by
  unfold run_lineups
  obtain ⟨hok, nPI, nHI, nBP, nBH, l1, l2, l3, l4, e1, e2, e3, e4, tl, tr⟩ :=
    run_loop_spec P H auto team s v oracle h1 h2 h3 h4 h5 horacle n 0
      { st with
        pitcher_indexes := some (st.pitcher_indexes.getD [])
        hitter_indexes := some (st.hitter_indexes.getD [])
        binary_lineups_pitchers := some (st.binary_lineups_pitchers.getD [])
        binary_lineups_hitters := some (st.binary_lineups_hitters.getD []) }
      (st.pitcher_indexes.getD []) (st.hitter_indexes.getD [])
      (st.binary_lineups_pitchers.getD []) (st.binary_lineups_hitters.getD [])
      rfl rfl rfl rfl
  refine ⟨hok, nPI, nHI, nBP, nBH, l1, l2, l3, l4, e1, e2, e3, e4, tr, ?_⟩
  have hl : (st.pitcher_indexes.getD [] ++ nPI).length
      = (st.hitter_indexes.getD [] ++ nHI).length := by
    rw [List.length_append, List.length_append, l1, l2, hlen0]
  have hcsv := csv_output_of_fields P H _ _ _ e1 e2 hl
  refine ⟨_, hcsv, ?_⟩
  simp only [List.length_cons, List.length_map, List.length_zip,
    List.length_append, l1, l2, hlen0]
  omega

/-- Witness for C10: two lineups generated on the example roster from a fresh
instance succeed. -/
theorem c10_witness :
    (run_lineups exPitchers exHitters 2 false none 4 0
      (fun _ => SolveOutcome.optimal exPv exHv []) freshState).1
      = Except.ok () :=
  (c10_session_accumulation exPitchers exHitters 2 false none 4 0
    (fun _ => SolveOutcome.optimal exPv exHv []) freshState (by decide)
    (by decide) (by decide) (by decide) (by decide)
    (fun _ => ⟨exPv, exHv, [], rfl⟩) (by decide)).1

/-- Witness for C8 on the example roster: the first pitcher is selected and no
selected hitter opposes team AAA. -/
theorem c8_witness :
    ((sel exHitters exHv).filter
      (fun h => h.opp == (exPitchers.getD 0 default).team)).length = 0 := by
  have h := c8_pitcher_opponent_exclusion exPitchers exHitters exPv exHv [] 0
    (by decide) (by decide) (by decide) (by decide)
  exact h.2.1 (by decide)

end MLBOpt
